import Mathlib

/-!
Verification of the NVTX range manager (nvtx-vscode).

This file gives a shallow embedding of the range data model, the range
adjustment engine and the range store of `NvtxRangeManager.ts` /
`NvtxDecorationManager.ts`, and proves the specified properties about them.

Modelling conventions:
* a document is a list of lines and a line is a list of characters
  (JS strings are sequences of characters; none of the inspected
  operations depend on UTF-16 encoding details);
* JS numbers holding line coordinates are modelled as `Int` where they can
  go negative (stored 1-indexed lines, deltas) and as `Nat` where the API
  guarantees non-negativity (positions inside a `ContentChange`);
* JS truthiness tests on `endLine` (`if (range.endLine)`) are modelled by
  `optTruthy`, which is false for `undefined` (`none`) and for `0`;
* `vscode.workspace.onDidChangeTextDocument` delivers `contentChanges`
  in pre-change coordinates together with `event.document`, which is the
  document *after* the change was applied; the processing functions
  therefore take the post-change document snapshot as their `Document`
  argument, and `applyChange` computes that snapshot from a pre-change
  document.
-/

/-- Kind of a range: `'block' | 'event'` in the TypeScript source. -/
inductive RangeType where
  | block
  | event
deriving DecidableEq, Repr

/-- The `NvtxRange` interface of `NvtxRangeManager.ts`: `startLine` is
1-indexed, `endLine` is 1-indexed and only present for block ranges. -/
structure NvtxRange where
  id : String
  name : String
  filePath : String
  type : RangeType
  startLine : Int
  endLine : Option Int
  isEnabled : Bool
deriving DecidableEq, Repr

/-- A line of a document, modelled as its list of characters. -/
abbrev Line := List Char

/-- A document, modelled as its list of lines (no line contains `'\n'`). -/
abbrev Document := List Line

/-- A zero-indexed position `{line, character}` as in the VS Code API. -/
structure Position where
  line : Nat
  character : Nat
deriving DecidableEq, Repr

/-- One discrete text replacement of a `TextDocumentChangeEvent`:
`change.range.start`, `change.range.end` (pre-change coordinates) and the
inserted text `change.text`. -/
structure ContentChange where
  start : Position
  stop : Position
  text : Line
deriving DecidableEq, Repr

/-- JS truthiness of an optional number: `undefined` and `0` are falsy. -/
def optTruthy : Option Int → Bool
  | none => false
  | some n => n != 0

/-- Reading `document.lineAt(n).text`; out-of-range reads (which the source
only performs behind a `lineCount` guard) return the empty line. -/
def lineAt (doc : Document) (n : Nat) : Line :=
  doc.getD n []

/-- JS `lineText.search(/\S/)`: index of the first non-whitespace
character, `-1` when there is none. -/
def searchNonWs (l : Line) : Int :=
  match l.findIdx? (fun c => !c.isWhitespace) with
  | some i => (i : Int)
  | none => -1

/-- JS `String.prototype.trimEnd`: drop trailing whitespace. -/
def trimEndCL (l : Line) : Line :=
  (l.reverse.dropWhile Char.isWhitespace).reverse

/-- JS `String.prototype.trim`: drop leading and trailing whitespace. -/
def trimCL (l : Line) : Line :=
  trimEndCL (l.dropWhile Char.isWhitespace)

/-- The count `(change.text.match(/\n/g) || []).length` of newline
characters of the inserted text (`linesAdded`). -/
def linesAdded (change : ContentChange) : Nat :=
  change.text.count '\n'

/-- The quantity `linesAdded - linesRemoved` computed per change in
`handleTextDocumentChange`, where
`linesRemoved = change.range.end.line - change.range.start.line`. -/
def netLineChangeOf (change : ContentChange) : Int :=
  (linesAdded change : Int) - ((change.stop.line : Int) - (change.start.line : Int))

/-- Applying one content change to a pre-change document: the text between
`change.range.start` and `change.range.end` is replaced by `change.text`,
and the affected region is re-split into lines.  This is the document
snapshot that `event.document` exposes when the change event fires. -/
def splitLinesCL : Line → List Line
  | [] => [[]]
  | c :: cs =>
    match splitLinesCL cs with
    | [] => [[]]
    | l :: ls => if c = '\n' then [] :: l :: ls else (c :: l) :: ls

/-- Replacement region of `applyChange`: prefix of the start line, the
inserted text, and the suffix of the end line. -/
def changedRegion (doc : Document) (change : ContentChange) : Line :=
  (lineAt doc change.start.line).take change.start.character
    ++ change.text
    ++ (lineAt doc change.stop.line).drop change.stop.character

/-- Post-change document produced by one content change. -/
def applyChange (doc : Document) (change : ContentChange) : Document :=
  doc.take change.start.line
    ++ splitLinesCL (changedRegion doc change)
    ++ doc.drop (change.stop.line + 1)

/-- Result record of `calculateRangeAdjustment`; `endLineDelta` is
`number | null` in the source, modelled as `Option Int`. -/
structure Adjustment where
  shouldModify : Bool
  startLineDelta : Int
  endLineDelta : Option Int
deriving DecidableEq, Repr

/-- Method `isInsertionBeforeContent` of `NvtxRangeManager`:
the first non-whitespace search is `-1` (blank line) or the insertion
column is at or before it. -/
def isInsertionBeforeContent (document : Document) (lineNumber : Nat)
    (insertionColumn : Nat) : Bool :=
  let lineText := lineAt document lineNumber
  let firstNonWhitespace := searchNonWs lineText
  firstNonWhitespace == -1 || (insertionColumn : Int) ≤ firstNonWhitespace

/-- Method `isInsertionAfterContent` of `NvtxRangeManager`: the insertion
column falls strictly before the end of the line's trailing-trimmed text. -/
def isInsertionAfterContent (document : Document) (lineNumber : Nat)
    (insertionColumn : Nat) : Bool :=
  let lineText := lineAt document lineNumber
  let lastNonWhitespace := (trimEndCL lineText).length
  (insertionColumn : Int) < (lastNonWhitespace : Int)

/-- Method `shouldExpandForNewlineInsertion` of `NvtxRangeManager`. -/
def shouldExpandForNewlineInsertion (document : Document)
    (changeStartLine : Nat) (insertionColumn : Nat) : Bool :=
  let currentLineText := lineAt document changeStartLine
  let nextLineExists := changeStartLine + 1 < document.length
  let nextLineText := if nextLineExists then lineAt document (changeStartLine + 1) else []
  let nextLineHasContent := (trimCL nextLineText).length > 0
  let currentLineHasContentAfterInsertion :=
    (insertionColumn : Int) < ((trimEndCL currentLineText).length : Int)
  nextLineHasContent || currentLineHasContentAfterInsertion

/-- Method `shouldExpandRangeAtEnd` of `NvtxRangeManager`. -/
def shouldExpandRangeAtEnd (change : ContentChange) (document : Document)
    (changeStartLine : Nat) (insertionColumn : Nat) (netLineChange : Int) : Bool :=
  if change.text.contains '\n' && netLineChange > 0 then
    shouldExpandForNewlineInsertion document changeStartLine insertionColumn
  else
    isInsertionAfterContent document changeStartLine insertionColumn

/-- Method `handleChangeAtRangeStart` of `NvtxRangeManager`. -/
def handleChangeAtRangeStart (change : ContentChange) (document : Document)
    (changeStartLine : Nat) (netLineChange : Int) : Adjustment :=
  let insertionColumn := change.start.character
  if isInsertionBeforeContent document changeStartLine insertionColumn then
    { shouldModify := true, startLineDelta := netLineChange, endLineDelta := some netLineChange }
  else
    { shouldModify := true, startLineDelta := 0, endLineDelta := some netLineChange }

/-- Method `handleChangeAtRangeEnd` of `NvtxRangeManager`. -/
def handleChangeAtRangeEnd (change : ContentChange) (document : Document)
    (changeStartLine : Nat) (netLineChange : Int) : Adjustment :=
  let insertionColumn := change.start.character
  if shouldExpandRangeAtEnd change document changeStartLine insertionColumn netLineChange then
    { shouldModify := true, startLineDelta := 0, endLineDelta := some netLineChange }
  else
    { shouldModify := false, startLineDelta := 0, endLineDelta := none }

/-- Method `calculateRangeAdjustment` of `NvtxRangeManager`; `rangeStart`
and `rangeEnd` are the zero-based boundaries computed by the caller. -/
def calculateRangeAdjustment (changeStartLine : Nat) (netLineChange : Int)
    (rangeStart rangeEnd : Int) (change : ContentChange)
    (document : Document) : Adjustment :=
  if (changeStartLine : Int) < rangeStart then
    { shouldModify := true, startLineDelta := netLineChange, endLineDelta := some netLineChange }
  else if (changeStartLine : Int) = rangeStart then
    handleChangeAtRangeStart change document changeStartLine netLineChange
  else if rangeStart < (changeStartLine : Int) ∧ (changeStartLine : Int) < rangeEnd then
    { shouldModify := true, startLineDelta := 0, endLineDelta := some netLineChange }
  else if (changeStartLine : Int) = rangeEnd then
    handleChangeAtRangeEnd change document changeStartLine netLineChange
  else
    { shouldModify := false, startLineDelta := 0, endLineDelta := none }

/-- Method `validateRangeBounds` of `NvtxRangeManager`: clamp
`startLine` to at least `1`, then clamp a *truthy* `endLine` to at least
`startLine` (the `if (validatedRange.endLine && ...)` guard skips
`endLine === 0`). -/
def validateRangeBounds (range : NvtxRange) : NvtxRange :=
  let r1 := if range.startLine < 1 then { range with startLine := 1 } else range
  if optTruthy r1.endLine && r1.endLine.getD 0 < r1.startLine then
    { r1 with endLine := some r1.startLine }
  else
    r1

/-- Per-range body of the `ranges.map` in `handleTextDocumentChange`:
ranges of other files pass through; otherwise the adjustment is computed
and applied (the `endLine` update is guarded by the truthiness of the
current `endLine` and by `endLineDelta !== null`), and the result passes
through `validateRangeBounds`.  The second component is the
`adjustment.shouldModify` flag that feeds `rangesModified`. -/
def adjustRange (currentFilePath : String) (doc : Document)
    (change : ContentChange) (changeStartLine : Nat) (netLineChange : Int)
    (range : NvtxRange) : NvtxRange × Bool :=
  if range.filePath ≠ currentFilePath then
    (range, false)
  else
    let rangeStart : Int := range.startLine - 1
    let rangeEnd : Int := if optTruthy range.endLine then range.endLine.getD 0 - 1 else rangeStart
    let adjustment :=
      calculateRangeAdjustment changeStartLine netLineChange rangeStart rangeEnd change doc
    let newRange :=
      if adjustment.shouldModify then
        let r1 := { range with startLine := range.startLine + adjustment.startLineDelta }
        if optTruthy r1.endLine && adjustment.endLineDelta.isSome then
          { r1 with endLine := some (r1.endLine.getD 0 + adjustment.endLineDelta.getD 0) }
        else
          r1
      else
        range
    (validateRangeBounds newRange, adjustment.shouldModify)

/-- Processing of one element of `event.contentChanges` inside
`handleTextDocumentChange`: a change with `netLineChange === 0` is
skipped (`continue`), otherwise every range is mapped through
`adjustRange`.  The boolean accumulates `rangesModified`. -/
def processOneChange (currentFilePath : String) (doc : Document)
    (change : ContentChange) (ranges : List NvtxRange) : List NvtxRange × Bool :=
  let changeStartLine := change.start.line
  let netLineChange := netLineChangeOf change
  if netLineChange = 0 then
    (ranges, false)
  else
    let results := ranges.map (adjustRange currentFilePath doc change changeStartLine netLineChange)
    (results.map Prod.fst, results.any Prod.snd)

/-- The `for (const change of event.contentChanges)` loop of
`handleTextDocumentChange`: changes are applied in order against the
progressively updated ranges, and `rangesModified` is or-accumulated. -/
def handleTextDocumentChange (currentFilePath : String) (doc : Document)
    (changes : List ContentChange) (ranges : List NvtxRange) : List NvtxRange × Bool :=
  changes.foldl
    (fun acc change =>
      let step := processOneChange currentFilePath doc change acc.1
      (step.1, acc.2 || step.2))
    (ranges, false)

/-- Sanity check: the spec scenario of an edit above the range. -/
example :
    calculateRangeAdjustment 4 2 9 14
      { start := ⟨4, 0⟩, stop := ⟨4, 0⟩, text := ['\n', '\n'] } [] =
      { shouldModify := true, startLineDelta := 2, endLineDelta := some 2 } := by
  decide

/-! ### The range store (`NvtxRangeManager` CRUD methods) -/

/-- Method `readRanges`: the backing file is modelled as an optional
character list (`none` when `fs.existsSync` is false), the `JSON.parse`
builtin as a parse function returning `none` on a parse exception.  The
second component records whether the `catch` block reported an error.
An absent file or a file whose trimmed content is empty yields the empty
collection with no error; a parse failure is caught, reported and also
yields the empty collection. -/
def readRanges (parseRanges : Line → Option (List NvtxRange))
    (file : Option Line) : List NvtxRange × Bool :=
  match file with
  | none => ([], false)
  | some content =>
    let contentString := trimCL content
    if contentString = [] then
      ([], false)
    else
      match parseRanges contentString with
      | some ranges => (ranges, false)
      | none => ([], true)

/-- Method `deleteRange`: filter out the id; write (and answer `true`)
exactly when the filtered list is shorter. The first component is the
stored set after the call. -/
def deleteRange (ranges : List NvtxRange) (rangeId : String) :
    List NvtxRange × Bool :=
  let updatedRanges := ranges.filter (fun r => r.id ≠ rangeId)
  if updatedRanges.length ≠ ranges.length then
    (updatedRanges, true)
  else
    (ranges, false)

/-- A `Partial<NvtxRange>` as passed to `updateRange`; each present field
overwrites the target range's field (`Object.assign`). -/
structure NvtxRangePatch where
  id : Option String := none
  name : Option String := none
  filePath : Option String := none
  type : Option RangeType := none
  startLine : Option Int := none
  endLine : Option (Option Int) := none
  isEnabled : Option Bool := none
deriving DecidableEq, Repr

/-- Effect of `Object.assign(targetRange, updates)`. -/
def applyPatch (r : NvtxRange) (u : NvtxRangePatch) : NvtxRange :=
  { id := u.id.getD r.id
    name := u.name.getD r.name
    filePath := u.filePath.getD r.filePath
    type := u.type.getD r.type
    startLine := u.startLine.getD r.startLine
    endLine := u.endLine.getD r.endLine
    isEnabled := u.isEnabled.getD r.isEnabled }

/-- In-place mutation of the element that `ranges.find` located: only the
first range with the given id is rewritten. -/
def patchFirst (ranges : List NvtxRange) (rangeId : String)
    (u : NvtxRangePatch) : List NvtxRange :=
  match ranges with
  | [] => []
  | r :: rest =>
    if r.id = rangeId then applyPatch r u :: rest
    else r :: patchFirst rest rangeId u

/-- Method `updateRange`: find the target by id; when found, assign the
updates and write the whole list, answering `true`; otherwise answer
`false` without writing. -/
def updateRange (ranges : List NvtxRange) (rangeId : String)
    (updates : NvtxRangePatch) : List NvtxRange × Bool :=
  match ranges.find? (fun r => r.id = rangeId) with
  | some _ => (patchFirst ranges rangeId updates, true)
  | none => (ranges, false)

/-- In-place `targetRange.isEnabled = !targetRange.isEnabled` on the
first range with the given id. -/
def toggleFirst (ranges : List NvtxRange) (rangeId : String) : List NvtxRange :=
  match ranges with
  | [] => []
  | r :: rest =>
    if r.id = rangeId then { r with isEnabled := !r.isEnabled } :: rest
    else r :: toggleFirst rest rangeId

/-- Method `toggleRangeEnabled`: find the target by id; when found, flip
its flag and write, answering `true`; otherwise answer `false` without
writing. -/
def toggleRangeEnabled (ranges : List NvtxRange) (rangeId : String) :
    List NvtxRange × Bool :=
  match ranges.find? (fun r => r.id = rangeId) with
  | some _ => (toggleFirst ranges rangeId, true)
  | none => (ranges, false)

/-- Method `generateUniqueId`: `Date.now().toString()`, with the
millisecond clock reading passed in as `now`. -/
def generateUniqueId (now : Nat) : String :=
  toString now

/-- Method `createRange` (the TypeScript defaults are
`type = 'block'` and `isEnabled = true`; they are explicit here). -/
def createRange (now : Nat) (name : String) (filePath : String)
    (startLine : Int) (endLine : Option Int) (type : RangeType)
    (isEnabled : Bool) : NvtxRange :=
  { id := generateUniqueId now
    name := name
    filePath := filePath
    type := type
    startLine := startLine
    endLine := endLine
    isEnabled := isEnabled }

/-! ### Claim C5: zero net line change -/

/-- C5: for every edit whose net line change (newlines inserted minus
lines removed) equals zero, the processing leaves every range
byte-for-byte unchanged — the `netLineChange === 0` guard `continue`s
before any range is inspected — regardless of the edit's position,
columns or inserted text. -/
theorem zero_net_line_change_is_noop (currentFilePath : String)
    (doc : Document) (change : ContentChange) (ranges : List NvtxRange)
    (hnet : netLineChangeOf change = 0) :
    processOneChange currentFilePath doc change ranges = (ranges, false) := by
  simp [processOneChange, hnet]

/-- Witness for `zero_net_line_change_is_noop` at a concrete edit that
inserts one newline while removing one line. -/
theorem zero_net_line_change_is_noop_witness :
    netLineChangeOf { start := ⟨3, 2⟩, stop := ⟨4, 1⟩, text := ['a', '\n', 'b'] } = 0 ∧
    processOneChange "f.py" [['x']]
      { start := ⟨3, 2⟩, stop := ⟨4, 1⟩, text := ['a', '\n', 'b'] }
      [{ id := "r", name := "n", filePath := "f.py", type := .block,
         startLine := 10, endLine := some 15, isEnabled := true }] =
      ([{ id := "r", name := "n", filePath := "f.py", type := .block,
          startLine := 10, endLine := some 15, isEnabled := true }], false) :=
  ⟨by decide, zero_net_line_change_is_noop "f.py" [['x']] _ _ (by decide)⟩

/-! ### Claim C3: rigid shift above the range -/

/-- C3: an edit whose start line is strictly above the range's start line
produces the adjustment `{shouldModify: true, startLineDelta: net,
endLineDelta: net}` — both boundaries shift by exactly `netLineChange`,
preserving their difference — and, in particular, the range
`{startLine: 10, endLine: 15}` after an edit inserting two new lines at
line 5, column 0 becomes `{startLine: 12, endLine: 17}`. -/
theorem edit_above_range_shifts_both_boundaries (changeStartLine : Nat)
    (netLineChange : Int) (rangeStart rangeEnd : Int)
    (change : ContentChange) (document : Document)
    (habove : (changeStartLine : Int) < rangeStart) :
    calculateRangeAdjustment changeStartLine netLineChange rangeStart rangeEnd
        change document =
      { shouldModify := true, startLineDelta := netLineChange,
        endLineDelta := some netLineChange } ∧
    processOneChange "f.py" (List.replicate 22 ['a'])
      { start := ⟨4, 0⟩, stop := ⟨4, 0⟩, text := ['\n', '\n'] }
      [{ id := "r", name := "n", filePath := "f.py", type := .block,
         startLine := 10, endLine := some 15, isEnabled := true }] =
      ([{ id := "r", name := "n", filePath := "f.py", type := .block,
          startLine := 12, endLine := some 17, isEnabled := true }], true) := by
  refine ⟨?_, by decide⟩
  unfold calculateRangeAdjustment
  rw [if_pos habove]

/-- Witness for `edit_above_range_shifts_both_boundaries`: the edit of the
scenario itself starts at zero-based line 4, above the zero-based range
start 9. -/
theorem edit_above_range_shifts_both_boundaries_witness :
    ((4 : Nat) : Int) < 9 ∧
    calculateRangeAdjustment 4 2 9 14
      { start := ⟨4, 0⟩, stop := ⟨4, 0⟩, text := ['\n', '\n'] }
      (List.replicate 22 ['a']) =
      { shouldModify := true, startLineDelta := 2, endLineDelta := some 2 } :=
  ⟨by decide,
    (edit_above_range_shifts_both_boundaries 4 2 9 14
      { start := ⟨4, 0⟩, stop := ⟨4, 0⟩, text := ['\n', '\n'] }
      (List.replicate 22 ['a']) (by decide)).1⟩

/-! ### Claim C4: containment growth -/

/-- C4: an edit whose start line lies strictly between the range's start
line and end line changes only `endLine`, by exactly `netLineChange`:
the adjustment is `{shouldModify: true, startLineDelta: 0,
endLineDelta: net}` and the processed range agrees with the input range
on every field except `endLine`, which moves by `netLineChange`.  The
hypothesis `startLine ≤ e + net` reflects the clamp that the engine
applies after every modification (`endLine = max(startLine, endLine)` for
truthy `endLine`); within it the growth is exact; the delta conjunct
holds regardless. -/
theorem edit_inside_range_grows_only_end (doc : Document)
    (change : ContentChange) (range : NvtxRange) (f : String) (e : Int)
    (hfile : range.filePath = f)
    (hend : range.endLine = some e)
    (hwf : 1 ≤ range.startLine)
    (hin1 : range.startLine - 1 < (change.start.line : Int))
    (hin2 : (change.start.line : Int) < e - 1)
    (hnoclamp : range.startLine ≤ e + netLineChangeOf change) :
    calculateRangeAdjustment change.start.line (netLineChangeOf change)
        (range.startLine - 1) (e - 1) change doc =
      { shouldModify := true, startLineDelta := 0,
        endLineDelta := some (netLineChangeOf change) } ∧
    adjustRange f doc change change.start.line (netLineChangeOf change) range =
      ({ range with endLine := some (e + netLineChangeOf change) }, true) := by
  have he0 : e ≠ 0 := by omega
  have h1 : ¬ ((change.start.line : Int) < range.startLine - 1) := by omega
  have h2 : ¬ ((change.start.line : Int) = range.startLine - 1) := by omega
  have h4 : ¬ (range.startLine < 1) := by omega
  have h5 : ¬ (e + netLineChangeOf change < range.startLine) := by omega
  constructor
  · unfold calculateRangeAdjustment
    rw [if_neg h1, if_neg h2, if_pos ⟨hin1, hin2⟩]
  · simp [adjustRange, calculateRangeAdjustment, validateRangeBounds, optTruthy,
      hfile, hend, he0, h1, h2, hin1, hin2, h4, h5]

/-- Witness for `edit_inside_range_grows_only_end`: an edit inserting one
line strictly inside the block `{startLine: 10, endLine: 15}`. -/
theorem edit_inside_range_grows_only_end_witness :
    let ch : ContentChange := { start := ⟨11, 0⟩, stop := ⟨11, 0⟩, text := ['\n'] }
    let r : NvtxRange := { id := "r", name := "n", filePath := "f.py", type := .block,
                           startLine := 10, endLine := some 15, isEnabled := true }
    r.filePath = "f.py" ∧ r.endLine = some 15 ∧ (1 : Int) ≤ r.startLine ∧
    r.startLine - 1 < ((ch.start.line : Nat) : Int) ∧ ((ch.start.line : Nat) : Int) < 15 - 1 ∧
    r.startLine ≤ 15 + netLineChangeOf ch ∧
    adjustRange "f.py" [] ch ch.start.line (netLineChangeOf ch) r =
      ({ r with endLine := some (15 + netLineChangeOf ch) }, true) := by
  refine ⟨rfl, rfl, by decide, by decide, by decide, by decide, ?_⟩
  exact (edit_inside_range_grows_only_end [] _ _ "f.py" 15 rfl rfl
    (by decide) (by decide) (by decide) (by decide)).2

/-! ### Claim C8: readRanges degrades to the empty collection -/

/-- C8: `readRanges` yields the empty collection, without reporting an
error, when the backing file is absent or its trimmed content is empty;
when the content is present but fails to parse as JSON, the error is
caught and reported and the empty collection is returned instead of the
exception propagating. -/
theorem readRanges_degrades_to_empty
    (parseRanges : Line → Option (List NvtxRange)) :
    (readRanges parseRanges none = ([], false)) ∧
    (∀ content : Line, trimCL content = [] →
      readRanges parseRanges (some content) = ([], false)) ∧
    (∀ content : Line, trimCL content ≠ [] → parseRanges (trimCL content) = none →
      readRanges parseRanges (some content) = ([], true)) := by
  refine ⟨rfl, ?_, ?_⟩
  · intro content h
    simp [readRanges, h]
  · intro content h hp
    simp [readRanges, h, hp]

/-- Witness for `readRanges_degrades_to_empty`: a parse function that
rejects everything, applied to an absent file, a whitespace-only file and
a malformed file. -/
theorem readRanges_degrades_to_empty_witness :
    (readRanges (fun _ => none) none = ([], false)) ∧
    (readRanges (fun _ => none) (some [' ', ' ', '\n']) = ([], false)) ∧
    (readRanges (fun _ => none) (some ['b', 'a', 'd']) = ([], true)) :=
  ⟨(readRanges_degrades_to_empty (fun _ => none)).1,
    (readRanges_degrades_to_empty (fun _ => none)).2.1 [' ', ' ', '\n'] (by decide),
    (readRanges_degrades_to_empty (fun _ => none)).2.2 ['b', 'a', 'd'] (by decide)
      rfl⟩

/-! ### Claim C9: delete/update/toggle report whether the id existed -/

/-- C9: `deleteRange`, `updateRange` and `toggleRangeEnabled` answer
`true` exactly when a range with the given id exists in the stored set,
and on the not-found path they answer `false` and leave the stored set
unchanged (no write is performed). -/
theorem store_ops_report_not_found (ranges : List NvtxRange)
    (rangeId : String) (updates : NvtxRangePatch) :
    ((deleteRange ranges rangeId).2 = true ↔ ∃ r ∈ ranges, r.id = rangeId) ∧
    ((deleteRange ranges rangeId).2 = false → (deleteRange ranges rangeId).1 = ranges) ∧
    ((updateRange ranges rangeId updates).2 = true ↔ ∃ r ∈ ranges, r.id = rangeId) ∧
    ((updateRange ranges rangeId updates).2 = false →
      (updateRange ranges rangeId updates).1 = ranges) ∧
    ((toggleRangeEnabled ranges rangeId).2 = true ↔ ∃ r ∈ ranges, r.id = rangeId) ∧
    ((toggleRangeEnabled ranges rangeId).2 = false →
      (toggleRangeEnabled ranges rangeId).1 = ranges) := by
  have hdel : (ranges.filter (fun r => r.id ≠ rangeId)).length ≠ ranges.length ↔
      ∃ r ∈ ranges, r.id = rangeId := by
    rw [ne_eq, List.filter_length_eq_length]
    push_neg
    simp
  have hfind : (ranges.find? (fun r => r.id = rangeId)).isSome = true ↔
      ∃ r ∈ ranges, r.id = rangeId := by
    simp [List.find?_isSome]
  refine ⟨?_, ?_, ?_, ?_, ?_, ?_⟩
  · by_cases hex : ∃ r ∈ ranges, r.id = rangeId <;> simp [deleteRange, hex]
  · intro h
    by_cases hex : ∃ r ∈ ranges, r.id = rangeId
    · simp [deleteRange, hex] at h
    · simp [deleteRange, hex]
  · cases hf : ranges.find? (fun r => r.id = rangeId) with
    | none =>
      have hex : ¬ ∃ r ∈ ranges, r.id = rangeId := by
        rw [← hfind, hf]
        simp
      simp [updateRange, hf, hex]
    | some r =>
      have hex : ∃ r ∈ ranges, r.id = rangeId := hfind.mp (by rw [hf]; rfl)
      simp [updateRange, hf, hex]
  · intro h
    cases hf : ranges.find? (fun r => r.id = rangeId)
    · simp [updateRange, hf]
    · simp [updateRange, hf] at h
  · cases hf : ranges.find? (fun r => r.id = rangeId) with
    | none =>
      have hex : ¬ ∃ r ∈ ranges, r.id = rangeId := by
        rw [← hfind, hf]
        simp
      simp [toggleRangeEnabled, hf, hex]
    | some r =>
      have hex : ∃ r ∈ ranges, r.id = rangeId := hfind.mp (by rw [hf]; rfl)
      simp [toggleRangeEnabled, hf, hex]
  · intro h
    cases hf : ranges.find? (fun r => r.id = rangeId)
    · simp [toggleRangeEnabled, hf]
    · simp [toggleRangeEnabled, hf] at h

/-- Witness for `store_ops_report_not_found`: a one-element store probed
with an id that is not present stays unchanged. -/
theorem store_ops_report_not_found_witness :
    (deleteRange
      [{ id := "1", name := "n", filePath := "f", type := .block,
         startLine := 1, endLine := some 2, isEnabled := true }] "2").2 = false ∧
    (deleteRange
      [{ id := "1", name := "n", filePath := "f", type := .block,
         startLine := 1, endLine := some 2, isEnabled := true }] "2").1 =
      [{ id := "1", name := "n", filePath := "f", type := .block,
         startLine := 1, endLine := some 2, isEnabled := true }] := by
  have h := (store_ops_report_not_found
    [{ id := "1", name := "n", filePath := "f", type := .block,
       startLine := 1, endLine := some 2, isEnabled := true }] "2" {}).2.1
  exact ⟨by decide, h (by decide)⟩

/-! ### Claim C6: the bounds invariant after document changes -/

/-- C6 failing input: the well-formed block range `{startLine: 1,
endLine: 1}` and the edit that deletes the document's first line
(replacement of the region from line 0, column 0 to line 1, column 0 by
the empty text, `netLineChange = -1`).  The at-start rule shifts both
boundaries by `-1`; the clamp restores `startLine` to `1`, but the
`if (validatedRange.endLine && ...)` guard of `validateRangeBounds`
treats the new `endLine` value `0` as falsy and skips the clamp, so the
processed range is `{startLine: 1, endLine: 0}` with `endLine` present
and strictly below `startLine` — the invariant the claim states is
violated, although the manager's own `validateRange` declares
`endLine >= startLine` mandatory. -/
theorem endline_zero_escapes_clamp :
    processOneChange "f.py"
        (applyChange [['d', 'e', 'f'], ['x']]
          { start := ⟨0, 0⟩, stop := ⟨1, 0⟩, text := [] })
        { start := ⟨0, 0⟩, stop := ⟨1, 0⟩, text := [] }
        [{ id := "r", name := "n", filePath := "f.py", type := .block,
           startLine := 1, endLine := some 1, isEnabled := true }] =
      ([{ id := "r", name := "n", filePath := "f.py", type := .block,
          startLine := 1, endLine := some 0, isEnabled := true }], true) ∧
    ∃ r' ∈ (processOneChange "f.py"
        (applyChange [['d', 'e', 'f'], ['x']]
          { start := ⟨0, 0⟩, stop := ⟨1, 0⟩, text := [] })
        { start := ⟨0, 0⟩, stop := ⟨1, 0⟩, text := [] }
        [{ id := "r", name := "n", filePath := "f.py", type := .block,
           startLine := 1, endLine := some 1, isEnabled := true }]).1,
      ∃ e, r'.endLine = some e ∧ e < r'.startLine := by
  refine ⟨by decide, ?_⟩
  exact ⟨{ id := "r", name := "n", filePath := "f.py", type := .block,
           startLine := 1, endLine := some 0, isEnabled := true },
    by decide, 0, rfl, by decide⟩

/-! ### Claim C2: the at-end newline rule -/

/-- C2 counterexample: the block range `{startLine: 1, endLine: 2}` over
the pre-edit document `["def", "abc", ""]`, with the edit inserting
`"\nx"` at line 1 (the range's end line), column 3 (`netLineChange = 1`).
The line *originally* following the edit's start line is blank, and the
start line `"abc"` has no non-blank content at or after column 3 — the
claim's condition is false, so the claim demands the range be left
unchanged — yet the code extends `endLine` to `3`, because it inspects
the post-edit document, in which line 2 is the freshly inserted `"x"`. -/
theorem at_end_newline_rule_counterexample :
    (processOneChange "f.py"
        (applyChange [['d', 'e', 'f'], ['a', 'b', 'c'], []]
          { start := ⟨1, 3⟩, stop := ⟨1, 3⟩, text := ['\n', 'x'] })
        { start := ⟨1, 3⟩, stop := ⟨1, 3⟩, text := ['\n', 'x'] }
        [{ id := "r", name := "n", filePath := "f.py", type := .block,
           startLine := 1, endLine := some 2, isEnabled := true }] =
      ([{ id := "r", name := "n", filePath := "f.py", type := .block,
          startLine := 1, endLine := some 3, isEnabled := true }], true)) ∧
    netLineChangeOf { start := ⟨1, 3⟩, stop := ⟨1, 3⟩, text := ['\n', 'x'] } = 1 ∧
    trimCL (lineAt [['d', 'e', 'f'], ['a', 'b', 'c'], []] 2) = [] ∧
    (trimEndCL (lineAt [['d', 'e', 'f'], ['a', 'b', 'c'], []] 1)).length ≤ 3 := by
  refine ⟨by decide, by decide, by decide, by decide⟩

/-! ### Claim C7: id uniqueness of created ranges -/

/-- C7 counterexample: two `createRange` invocations that observe the
same `Date.now()` millisecond reading produce two different ranges that
carry the *same* id — `generateUniqueId` is just the clock value's
decimal string, so ids do collide within a workspace's lifetime whenever
two creations fall into one millisecond. -/
theorem same_millisecond_ids_collide :
    (createRange 1700000000000 "forward" "/a.py" 1 (some 3) .block true).id =
      (createRange 1700000000000 "backward" "/b.py" 7 none .event true).id ∧
    createRange 1700000000000 "forward" "/a.py" 1 (some 3) .block true ≠
      createRange 1700000000000 "backward" "/b.py" 7 none .event true := by
  refine ⟨rfl, by decide⟩

/-- Unfolding of `shouldExpandForNewlineInsertion`: the `nextLineExists`
guard is equivalent to reading an empty line out of range, so the method
answers exactly "the post-change line after the change's start line has
non-blank content, or the post-change start line has non-blank content at
or after the insertion column". -/
theorem shouldExpandForNewlineInsertion_iff (doc : Document) (csl sc : Nat) :
    shouldExpandForNewlineInsertion doc csl sc = true ↔
      (0 < (trimCL (lineAt doc (csl + 1))).length
        ∨ (sc : Int) < ((trimEndCL (lineAt doc csl)).length : Int)) := by
  unfold shouldExpandForNewlineInsertion
  by_cases hex : csl + 1 < doc.length
  · simp [hex]
  · have hempty : lineAt doc (csl + 1) = [] := by
      simp [lineAt, List.getElem?_eq_none (by omega : doc.length ≤ csl + 1)]
    simp [hex, hempty, trimCL, trimEndCL]

/-- C2, amended: for a block range with `startLine < endLine`, an edit
starting at the range's end line whose text contains a newline and whose
`netLineChange` is positive extends `endLine` by `netLineChange` exactly
when, *in the post-change document* (the snapshot `event.document`
delivers), the line following the edit's start line has non-blank
content or the start line has non-blank content at or after the
insertion column; otherwise the range is left unchanged. -/
theorem at_end_newline_rule_post_edit (doc : Document) (change : ContentChange)
    (range : NvtxRange) (f : String) (e : Int)
    (hfile : range.filePath = f)
    (hend : range.endLine = some e)
    (hwf1 : 1 ≤ range.startLine)
    (hwf2 : range.startLine < e)
    (hat : (change.start.line : Int) = e - 1)
    (hnl : change.text.contains '\n' = true)
    (hnet : 0 < netLineChangeOf change) :
    adjustRange f doc change change.start.line (netLineChangeOf change) range =
      if 0 < (trimCL (lineAt doc (change.start.line + 1))).length
          ∨ (change.start.character : Int) <
            ((trimEndCL (lineAt doc change.start.line)).length : Int)
      then ({ range with endLine := some (e + netLineChangeOf change) }, true)
      else (range, false) := by
  have he0 : e ≠ 0 := by omega
  have h1 : ¬ ((change.start.line : Int) < range.startLine - 1) := by omega
  have h2 : ¬ ((change.start.line : Int) = range.startLine - 1) := by omega
  have h3 : ¬ (range.startLine - 1 < (change.start.line : Int) ∧
      (change.start.line : Int) < e - 1) := by omega
  have h5 : ¬ (range.startLine < 1) := by omega
  have h6 : ¬ (e + netLineChangeOf change < range.startLine) := by omega
  have h7 : e + netLineChangeOf change ≠ 0 := by omega
  have h8 : ¬ (e < range.startLine) := by omega
  have h9 : e ≠ range.startLine := by omega
  have hmem : '\n' ∈ change.text := by simpa using hnl
  by_cases hcond : 0 < (trimCL (lineAt doc (change.start.line + 1))).length
      ∨ (change.start.character : Int) <
        ((trimEndCL (lineAt doc change.start.line)).length : Int)
  · have hb : shouldExpandForNewlineInsertion doc change.start.line
        change.start.character = true :=
      (shouldExpandForNewlineInsertion_iff doc _ _).mpr hcond
    rw [if_pos hcond]
    simp [adjustRange, calculateRangeAdjustment, handleChangeAtRangeEnd,
      shouldExpandRangeAtEnd, validateRangeBounds, optTruthy, hfile, hend, he0,
      h1, h2, h3, hat, hnl, hnet, hb, h5, h6, h7, h8, h9, hmem]
  · have hb : shouldExpandForNewlineInsertion doc change.start.line
        change.start.character = false := by
      rw [Bool.eq_false_iff]
      intro hx
      exact hcond ((shouldExpandForNewlineInsertion_iff doc _ _).mp hx)
    rw [if_neg hcond]
    simp [adjustRange, calculateRangeAdjustment, handleChangeAtRangeEnd,
      shouldExpandRangeAtEnd, validateRangeBounds, optTruthy, hfile, hend, he0,
      h1, h2, h3, hat, hnl, hnet, hb, h5, h8, h9, hmem]

/-- Witness for `at_end_newline_rule_post_edit` at the concrete input of
the counterexample: the post-change next line holds the inserted `"x"`,
so the condition holds and the range grows to `{startLine: 1,
endLine: 3}`. -/
theorem at_end_newline_rule_post_edit_witness :
    let preDoc : Document := [['d', 'e', 'f'], ['a', 'b', 'c'], []]
    let ch : ContentChange := { start := ⟨1, 3⟩, stop := ⟨1, 3⟩, text := ['\n', 'x'] }
    let r : NvtxRange := { id := "r", name := "n", filePath := "f.py", type := .block,
                           startLine := 1, endLine := some 2, isEnabled := true }
    adjustRange "f.py" (applyChange preDoc ch) ch ch.start.line (netLineChangeOf ch) r =
      if 0 < (trimCL (lineAt (applyChange preDoc ch) (ch.start.line + 1))).length
          ∨ (ch.start.character : Int) <
            ((trimEndCL (lineAt (applyChange preDoc ch) ch.start.line)).length : Int)
      then ({ r with endLine := some (2 + netLineChangeOf ch) }, true)
      else (r, false) := by
  intro preDoc ch r
  exact at_end_newline_rule_post_edit (applyChange preDoc ch) ch r "f.py" 2
    rfl rfl (by decide) (by decide) (by decide) (by decide) (by decide)

/-! ### Claim C10: frame effect of document-change processing -/

/-- Frame relation between an input range and its processed version:
every field other than the boundary lines is unchanged, a range of
another file is untouched, and an absent `endLine` stays absent. -/
def FramePreserved (currentFilePath : String) (r r' : NvtxRange) : Prop :=
  r'.id = r.id ∧ r'.name = r.name ∧ r'.filePath = r.filePath ∧
  r'.type = r.type ∧ r'.isEnabled = r.isEnabled ∧
  (r.filePath ≠ currentFilePath → r' = r) ∧
  (r.endLine = none → r'.endLine = none)

/-- Reflexivity of the frame relation. -/
theorem framePreserved_refl (f : String) (r : NvtxRange) : FramePreserved f r r := by
  simp [FramePreserved]

/-- The frame relation composes along successive processing steps. -/
theorem framePreserved_comp {f : String} {a b c : NvtxRange}
    (h1 : FramePreserved f a b) (h2 : FramePreserved f b c) :
    FramePreserved f a c := by
  obtain ⟨i1, n1, p1, t1, e1, q1, z1⟩ := h1
  obtain ⟨i2, n2, p2, t2, e2, q2, z2⟩ := h2
  refine ⟨i2.trans i1, n2.trans n1, p2.trans p1, t2.trans t1, e2.trans e1, ?_, ?_⟩
  · intro hne
    have hb : b = a := q1 hne
    have hc : c = b := q2 (by rw [hb]; exact hne)
    rw [hc, hb]
  · intro hnone
    exact z2 (z1 hnone)

/-- Pointwise composition of `Forall₂` chains of the frame relation. -/
theorem forall₂_framePreserved_comp {f : String} :
    ∀ {l1 l2 l3 : List NvtxRange},
      List.Forall₂ (FramePreserved f) l1 l2 → List.Forall₂ (FramePreserved f) l2 l3 →
      List.Forall₂ (FramePreserved f) l1 l3
  | [], [], [], _, _ => List.Forall₂.nil
  | _ :: _, _ :: _, _ :: _, List.Forall₂.cons h1 t1, List.Forall₂.cons h2 t2 =>
    List.Forall₂.cons (framePreserved_comp h1 h2) (forall₂_framePreserved_comp t1 t2)

/-- Clamping touches only `startLine` and `endLine`, and never introduces
an `endLine` where there was none. -/
theorem validateRangeBounds_frame (r : NvtxRange) :
    (validateRangeBounds r).id = r.id ∧ (validateRangeBounds r).name = r.name ∧
    (validateRangeBounds r).filePath = r.filePath ∧
    (validateRangeBounds r).type = r.type ∧
    (validateRangeBounds r).isEnabled = r.isEnabled ∧
    (r.endLine = none → (validateRangeBounds r).endLine = none) := by
  cases hre : r.endLine <;>
    (simp only [validateRangeBounds, optTruthy, hre]
     split_ifs <;> simp_all)

/-- Clamping a range of the edited file preserves the frame relation
towards any range it agrees with outside the boundary fields. -/
theorem framePreserved_validate (f : String) (r nr : NvtxRange)
    (h1 : nr.id = r.id) (h2 : nr.name = r.name) (h3 : nr.filePath = r.filePath)
    (h4 : nr.type = r.type) (h5 : nr.isEnabled = r.isEnabled)
    (h6 : r.endLine = none → nr.endLine = none)
    (h7 : r.filePath = f) :
    FramePreserved f r (validateRangeBounds nr) := by
  obtain ⟨v1, v2, v3, v4, v5, v6⟩ := validateRangeBounds_frame nr
  exact ⟨v1.trans h1, v2.trans h2, v3.trans h3, v4.trans h4, v5.trans h5,
    fun hne => absurd h7 hne, fun hnone => v6 (h6 hnone)⟩

/-- One `adjustRange` step respects the frame relation: only `startLine`
and `endLine` are rebuilt, other-file ranges are returned as they came
in, and the `endLine` update is guarded by its truthiness. -/
theorem adjustRange_frame (f : String) (doc : Document) (ch : ContentChange)
    (csl : Nat) (net : Int) (r : NvtxRange) :
    FramePreserved f r (adjustRange f doc ch csl net r).1 := by
  unfold adjustRange
  by_cases hf : r.filePath ≠ f
  · rw [if_pos hf]
    exact framePreserved_refl f r
  · rw [if_neg hf]
    dsimp only
    apply framePreserved_validate f r _ ?_ ?_ ?_ ?_ ?_ ?_ (by simpa using hf)
    · split_ifs <;> rfl
    · split_ifs <;> rfl
    · split_ifs <;> rfl
    · split_ifs <;> rfl
    · split_ifs <;> rfl
    · intro hnone
      split_ifs <;> simp_all [optTruthy]

/-- One content change respects the frame relation on the whole list. -/
theorem processOneChange_frame (f : String) (doc : Document)
    (ch : ContentChange) (ranges : List NvtxRange) :
    List.Forall₂ (FramePreserved f) ranges (processOneChange f doc ch ranges).1 := by
  simp only [processOneChange]
  by_cases h : netLineChangeOf ch = 0
  · simp only [h, if_true]
    exact List.forall₂_same.mpr (fun x _ => framePreserved_refl f x)
  · simp only [h, if_false, List.map_map]
    rw [List.forall₂_map_right_iff]
    exact List.forall₂_same.mpr (fun x _ => adjustRange_frame f doc ch ch.start.line (netLineChangeOf ch) x)

/-- The whole change loop respects the frame relation, for any initial
`rangesModified` flag. -/
theorem changeLoop_frame (f : String) (doc : Document) :
    ∀ (changes : List ContentChange) (ranges : List NvtxRange) (b : Bool),
      List.Forall₂ (FramePreserved f) ranges
        (changes.foldl
          (fun acc change =>
            let step := processOneChange f doc change acc.1
            (step.1, acc.2 || step.2))
          (ranges, b)).1
  | [], ranges, b => List.forall₂_same.mpr (fun x _ => framePreserved_refl f x)
  | ch :: rest, ranges, b => by
    simp only [List.foldl_cons]
    exact forall₂_framePreserved_comp (processOneChange_frame f doc ch ranges)
      (changeLoop_frame f doc rest (processOneChange f doc ch ranges).1
        (b || (processOneChange f doc ch ranges).2))

/-- C10: processing a document-change event only moves `startLine` and
`endLine`: the processed list has the same length (no range is added or
removed), every range keeps its `id`, `name`, `filePath`, `type` and
`isEnabled`, ranges whose `filePath` differs from the edited file pass
through identically, and a range without an `endLine` never gains one. -/
theorem document_change_frame_effect (f : String) (doc : Document)
    (changes : List ContentChange) (ranges : List NvtxRange) :
    (handleTextDocumentChange f doc changes ranges).1.length = ranges.length ∧
    List.Forall₂ (FramePreserved f) ranges
      (handleTextDocumentChange f doc changes ranges).1 := by
  have h := changeLoop_frame f doc changes ranges false
  exact ⟨(List.Forall₂.length_eq h).symm, h⟩

/-- Witness for `document_change_frame_effect` on a concrete event: one
same-file block range, one other-file range and one event range, under a
one-line insertion. -/
theorem document_change_frame_effect_witness :
    List.Forall₂ (FramePreserved "f.py")
      [{ id := "1", name := "a", filePath := "f.py", type := .block,
         startLine := 3, endLine := some 5, isEnabled := true },
       { id := "2", name := "b", filePath := "g.py", type := .block,
         startLine := 1, endLine := some 2, isEnabled := false },
       { id := "3", name := "c", filePath := "f.py", type := .event,
         startLine := 9, endLine := none, isEnabled := true }]
      (handleTextDocumentChange "f.py" [['x']]
        [{ start := ⟨0, 0⟩, stop := ⟨0, 0⟩, text := ['\n'] }]
        [{ id := "1", name := "a", filePath := "f.py", type := .block,
           startLine := 3, endLine := some 5, isEnabled := true },
         { id := "2", name := "b", filePath := "g.py", type := .block,
           startLine := 1, endLine := some 2, isEnabled := false },
         { id := "3", name := "c", filePath := "f.py", type := .event,
           startLine := 9, endLine := none, isEnabled := true }]).1 :=
  (document_change_frame_effect "f.py" [['x']]
    [{ start := ⟨0, 0⟩, stop := ⟨0, 0⟩, text := ['\n'] }]
    [{ id := "1", name := "a", filePath := "f.py", type := .block,
       startLine := 3, endLine := some 5, isEnabled := true },
     { id := "2", name := "b", filePath := "g.py", type := .block,
       startLine := 1, endLine := some 2, isEnabled := false },
     { id := "3", name := "c", filePath := "f.py", type := .event,
       startLine := 9, endLine := none, isEnabled := true }]).2

/-- Decimal digit list of a natural number, most significant digit first:
the specification that `Nat.toDigitsCore` computes with fuel. -/
def decDigits (n : Nat) : List Char :=
  if _h : n < 10 then [Nat.digitChar n]
  else decDigits (n / 10) ++ [Nat.digitChar (n % 10)]
termination_by n
decreasing_by exact Nat.div_lt_self (by omega) (by omega)

/-- Unfolding of `decDigits` on a single digit. -/
theorem decDigits_lt (n : Nat) (h : n < 10) :
    decDigits n = [Nat.digitChar n] := by
  rw [decDigits, dif_pos h]

/-- Unfolding of `decDigits` on a multi-digit number. -/
theorem decDigits_ge (n : Nat) (h : ¬ n < 10) :
    decDigits n = decDigits (n / 10) ++ [Nat.digitChar (n % 10)] := by
  rw [decDigits, dif_neg h]

/-- With sufficient fuel, `Nat.toDigitsCore` produces `decDigits`. -/
theorem toDigitsCore_eq_decDigits :
    ∀ (fuel n : Nat) (ds : List Char), n < fuel →
      Nat.toDigitsCore 10 fuel n ds = decDigits n ++ ds := by
  intro fuel
  induction fuel with
  | zero => intro n ds h; omega
  | succ f ih =>
    intro n ds h
    simp only [Nat.toDigitsCore]
    by_cases h10 : n / 10 = 0
    · have hn : n < 10 := by omega
      rw [if_pos h10, decDigits_lt n hn, Nat.mod_eq_of_lt hn]
      simp
    · have hpos : 0 < n := by
        by_contra hz
        exact h10 (by omega)
      have hself : n / 10 < n := Nat.div_lt_self hpos (by omega)
      have hlt : n / 10 < f := by omega
      rw [if_neg h10, ih (n / 10) (Nat.digitChar (n % 10) :: ds) hlt,
        decDigits_ge n (by omega)]
      simp

/-- The printed representation of a natural number is its decimal digit
list. -/
theorem repr_eq_decDigits (n : Nat) : Nat.repr n = (decDigits n).asString := by
  unfold Nat.repr Nat.toDigits
  rw [toDigitsCore_eq_decDigits (n + 1) n [] (Nat.lt_succ_self n)]
  simp

/-- The digit characters of values below ten are pairwise distinct. -/
theorem digitChar_inj_fin :
    ∀ a b : Fin 10, Nat.digitChar a.val = Nat.digitChar b.val → a = b := by
  decide

/-- A decimal digit list is never empty. -/
theorem decDigits_ne_nil (n : Nat) : decDigits n ≠ [] := by
  by_cases h : n < 10
  · rw [decDigits_lt n h]
    simp
  · rw [decDigits_ge n h]
    simp

/-- Distinct natural numbers have distinct decimal digit lists. -/
theorem decDigits_injective : ∀ m : Nat, ∀ n : Nat, decDigits m = decDigits n → m = n := by
  intro m
  induction m using Nat.strong_induction_on with
  | _ m ih =>
    intro n h
    by_cases hm : m < 10 <;> by_cases hn : n < 10
    · rw [decDigits_lt m hm, decDigits_lt n hn] at h
      injection h with h1 _
      have := digitChar_inj_fin ⟨m, hm⟩ ⟨n, hn⟩ h1
      exact congrArg Fin.val this
    · rw [decDigits_lt m hm, decDigits_ge n hn] at h
      have hlen := congrArg List.length h
      simp only [List.length_cons, List.length_nil, List.length_append] at hlen
      exact absurd (List.length_eq_zero.mp (by omega)) (decDigits_ne_nil (n / 10))
    · rw [decDigits_ge m hm, decDigits_lt n hn] at h
      have hlen := congrArg List.length h
      simp only [List.length_cons, List.length_nil, List.length_append] at hlen
      exact absurd (List.length_eq_zero.mp (by omega)) (decDigits_ne_nil (m / 10))
    · rw [decDigits_ge m hm, decDigits_ge n hn] at h
      obtain ⟨h1, h2⟩ := List.append_inj' h (by simp)
      have hd : m % 10 = n % 10 := by
        injection h2 with h2' _
        exact congrArg Fin.val
          (digitChar_inj_fin ⟨m % 10, Nat.mod_lt m (by omega)⟩
            ⟨n % 10, Nat.mod_lt n (by omega)⟩ h2')
      have hq : m / 10 = n / 10 :=
        ih (m / 10) (Nat.div_lt_self (by omega) (by omega)) (n / 10) h1
      have hm10 := Nat.div_add_mod m 10
      have hn10 := Nat.div_add_mod n 10
      omega

/-- Distinct clock readings produce distinct ids. -/
theorem generateUniqueId_injective (t1 t2 : Nat) (hne : t1 ≠ t2) :
    generateUniqueId t1 ≠ generateUniqueId t2 := by
  intro heq
  apply hne
  have h1 : Nat.repr t1 = Nat.repr t2 := heq
  rw [repr_eq_decDigits, repr_eq_decDigits] at h1
  have h2 : decDigits t1 = decDigits t2 := congrArg String.data h1
  exact decDigits_injective t1 t2 h2

/-- C7, amended: the id assigned by `createRange` is the decimal string
of the `Date.now()` millisecond reading, so the ids of two created
ranges are distinct whenever the two invocations observe distinct clock
values; two invocations within one millisecond collide. -/
theorem distinct_timestamps_give_distinct_ids (t1 t2 : Nat)
    (n1 f1 : String) (s1 : Int) (e1 : Option Int) (k1 : RangeType) (b1 : Bool)
    (n2 f2 : String) (s2 : Int) (e2 : Option Int) (k2 : RangeType) (b2 : Bool)
    (hne : t1 ≠ t2) :
    (createRange t1 n1 f1 s1 e1 k1 b1).id ≠ (createRange t2 n2 f2 s2 e2 k2 b2).id :=
  generateUniqueId_injective t1 t2 hne

/-- Witness for `distinct_timestamps_give_distinct_ids` at two concrete
clock readings one millisecond apart. -/
theorem distinct_timestamps_give_distinct_ids_witness :
    (1700000000000 : Nat) ≠ 1700000000001 ∧
    (createRange 1700000000000 "a" "/a.py" 1 (some 3) .block true).id ≠
      (createRange 1700000000001 "b" "/b.py" 7 none .event true).id :=
  ⟨by decide,
    distinct_timestamps_give_distinct_ids 1700000000000 1700000000001
      "a" "/a.py" 1 (some 3) .block true "b" "/b.py" 7 none .event true
      (by decide)⟩

/-! ### Claim C1: the at-start rule -/

/-- The at-start classification test equals "every character of the line
before the insertion column is whitespace". -/
theorem beforeCond_eq_take_all (l : Line) (c : Nat) :
    (searchNonWs l == -1 || decide ((c : Int) ≤ searchNonWs l)) =
      (l.take c).all Char.isWhitespace := by
  induction l generalizing c with
  | nil => simp [searchNonWs]
  | cons a t ih =>
    by_cases pa : a.isWhitespace = true
    · cases hf : t.findIdx? (fun c => !c.isWhitespace) with
      | none =>
        have hs : searchNonWs (a :: t) = -1 := by
          simp [searchNonWs, List.findIdx?_cons, pa, hf]
        rw [hs]
        have hall : ∀ x ∈ t, x.isWhitespace = true := by
          intro x hx
          have := List.findIdx?_eq_none_iff.mp hf x hx
          simpa using this
        cases c with
        | zero => simp
        | succ k =>
          simp only [List.take_succ_cons, List.all_cons, pa, Bool.true_and]
          have htk : (List.take k t).all Char.isWhitespace = true := by
            rw [List.all_eq_true]
            exact fun x hx => hall x (List.mem_of_mem_take hx)
          rw [htk]
          simp
      | some i =>
        have hs : searchNonWs (a :: t) = (i : Int) + 1 := by
          simp [searchNonWs, List.findIdx?_cons, pa, hf]
        have hst : searchNonWs t = (i : Int) := by
          simp [searchNonWs, hf]
        rw [hs]
        cases c with
        | zero =>
          simp
          omega
        | succ k =>
          have ihk := ih k
          rw [hst] at ihk
          simp only [List.take_succ_cons, List.all_cons, pa, Bool.true_and]
          rw [← ihk]
          have e1 : (((i : Int) + 1) == -1) = false := by
            rw [beq_eq_false_iff_ne]
            omega
          have e2 : (((i : Int)) == -1) = false := by
            rw [beq_eq_false_iff_ne]
            omega
          rw [e1, e2]
          simp only [Bool.false_or]
          exact decide_eq_decide.mpr (by push_cast; omega)
    · have hs : searchNonWs (a :: t) = 0 := by
        simp [searchNonWs, List.findIdx?_cons, pa]
      rw [hs]
      cases c with
      | zero => simp
      | succ k =>
        simp only [List.take_succ_cons, List.all_cons, pa, Bool.false_and]
        rw [decide_eq_false (by push_cast; omega : ¬ (((k + 1 : Nat) : Int) ≤ 0))]
        decide

/-- The at-start classification depends only on the prefix of the line
before the insertion column. -/
theorem isInsertionBeforeContent_eq_take (doc : Document) (ln c : Nat) :
    isInsertionBeforeContent doc ln c =
      ((lineAt doc ln).take c).all Char.isWhitespace := by
  unfold isInsertionBeforeContent
  exact beforeCond_eq_take_all (lineAt doc ln) c

/-- Splitting a character list into lines never yields the empty list. -/
theorem splitLinesCL_ne_nil : ∀ s : Line, splitLinesCL s ≠ []
  | [] => by simp [splitLinesCL]
  | c :: cs => by
    simp only [splitLinesCL]
    cases h : splitLinesCL cs with
    | nil => simp
    | cons l ls =>
      by_cases hc : c = '\n' <;> simp [hc]

/-- The first line produced by splitting is the segment before the first
newline. -/
theorem splitLinesCL_head : ∀ s : Line,
    (splitLinesCL s).getD 0 [] = s.takeWhile (fun c => c != '\n')
  | [] => rfl
  | c :: cs => by
    simp only [splitLinesCL]
    cases h : splitLinesCL cs with
    | nil => exact absurd h (splitLinesCL_ne_nil cs)
    | cons l ls =>
      have hl : l = cs.takeWhile (fun c => c != '\n') := by
        have hh := splitLinesCL_head cs
        rw [h] at hh
        simpa using hh
      by_cases hc : c = '\n'
      · subst hc
        simp [List.takeWhile_cons]
      · simp [hc, hl, List.takeWhile_cons]

/-- In the post-change document, the line at the change's start position
is the changed region up to its first newline. -/
theorem lineAt_applyChange_start (doc : Document) (ch : ContentChange)
    (hsl : ch.start.line ≤ doc.length) :
    lineAt (applyChange doc ch) ch.start.line =
      (changedRegion doc ch).takeWhile (fun c => c != '\n') := by
  unfold applyChange lineAt
  have hlen : (doc.take ch.start.line).length = ch.start.line := by
    rw [List.length_take]
    omega
  rw [List.getD_eq_getElem?_getD, List.append_assoc,
    List.getElem?_append_right (le_of_eq hlen), hlen, Nat.sub_self,
    List.getElem?_append_left
      (List.length_pos.mpr (splitLinesCL_ne_nil (changedRegion doc ch))),
    ← List.getD_eq_getElem?_getD]
  exact splitLinesCL_head _

/-- The at-start classification gives the same answer on the pre-change
and the post-change document: the prefix of the start line before the
insertion column is untouched by the change. -/
theorem isInsertionBeforeContent_applyChange (doc : Document) (ch : ContentChange)
    (hsl : ch.start.line < doc.length)
    (hsc : ch.start.character ≤ (lineAt doc ch.start.line).length)
    (hnl : ∀ a ∈ lineAt doc ch.start.line, a ≠ '\n') :
    isInsertionBeforeContent (applyChange doc ch) ch.start.line ch.start.character =
      isInsertionBeforeContent doc ch.start.line ch.start.character := by
  rw [isInsertionBeforeContent_eq_take, isInsertionBeforeContent_eq_take,
    lineAt_applyChange_start doc ch (le_of_lt hsl)]
  unfold changedRegion
  rw [List.append_assoc,
    List.takeWhile_append_of_pos
      (by
        intro a ha
        simpa using hnl a (List.mem_of_mem_take ha))]
  have hlen : ((lineAt doc ch.start.line).take ch.start.character).length =
      ch.start.character := by
    rw [List.length_take]
    omega
  rw [List.take_left' hlen]

/-- C1: for an edit with nonzero net line change starting exactly at the
range's start boundary, the adjustment shifts both boundaries by
`netLineChange` when the insertion column is at or before the first
non-whitespace column of the start line's *pre-edit* text (or the line is
blank), and otherwise leaves `startLine` unchanged while shifting only
`endLine` by `netLineChange`.  The engine actually inspects the
post-change snapshot, but the inspected prefix of the start line is not
affected by the change, so the pre-edit formulation of the claim holds. -/
theorem at_start_rule_classifies_by_pre_edit_text (doc : Document)
    (ch : ContentChange) (rangeStart rangeEnd : Int)
    (hnet : netLineChangeOf ch ≠ 0)
    (hat : (ch.start.line : Int) = rangeStart)
    (hsl : ch.start.line < doc.length)
    (hsc : ch.start.character ≤ (lineAt doc ch.start.line).length)
    (hnl : ∀ a ∈ lineAt doc ch.start.line, a ≠ '\n') :
    calculateRangeAdjustment ch.start.line (netLineChangeOf ch) rangeStart rangeEnd
        ch (applyChange doc ch) =
      if isInsertionBeforeContent doc ch.start.line ch.start.character then
        { shouldModify := true, startLineDelta := netLineChangeOf ch,
          endLineDelta := some (netLineChangeOf ch) }
      else
        { shouldModify := true, startLineDelta := 0,
          endLineDelta := some (netLineChangeOf ch) } := by
  unfold calculateRangeAdjustment
  rw [if_neg (by omega), if_pos hat]
  unfold handleChangeAtRangeStart
  dsimp only
  rw [isInsertionBeforeContent_applyChange doc ch hsl hsc hnl]

/-- Witness for `at_start_rule_classifies_by_pre_edit_text` on the spec
scenario: start line `"    code"` (first non-whitespace column 4), an
edit inserting a line of content at column 0, classified as before the
content, so both deltas are `+1`. -/
theorem at_start_rule_classifies_by_pre_edit_text_witness :
    let doc : Document :=
      List.replicate 9 ['q'] ++ [[' ', ' ', ' ', ' ', 'c', 'o', 'd', 'e']]
        ++ List.replicate 10 ['w']
    let ch : ContentChange := { start := ⟨9, 0⟩, stop := ⟨9, 0⟩, text := ['p', '\n'] }
    netLineChangeOf ch ≠ 0 ∧ ch.start.line < doc.length ∧
    ch.start.character ≤ (lineAt doc ch.start.line).length ∧
    (∀ a ∈ lineAt doc ch.start.line, a ≠ '\n') ∧
    calculateRangeAdjustment ch.start.line (netLineChangeOf ch) 9 14
        ch (applyChange doc ch) =
      { shouldModify := true, startLineDelta := 1, endLineDelta := some 1 } := by
  intro doc ch
  refine ⟨by decide, by decide, by decide, by decide, ?_⟩
  have h := at_start_rule_classifies_by_pre_edit_text doc ch 9 14
    (by decide) (by decide) (by decide) (by decide) (by decide)
  rw [if_pos (by decide)] at h
  exact h
